import Mathlib

/-!
Verification of the day-schedule allocation algorithm of the
`casl-generator` repository.

The scheduler lives, duplicated, in two rendering backends:
`src/app/generator_lesson_plan.py` (DOCX) and
`src/app/generator_lesson_plan_pdf.py` (PDF).  Each backend defines the
helpers `_fmt_time` and `_build_schedule`; both are transcribed below,
the DOCX copy in namespace `Docx` and the PDF copy in namespace `Pdf`.

Python integers are embedded as `Int`; Python floor division `//` is
`Int.fdiv` and `%` (with the positive modulus 60) is `Int.emod`.
-/

/-- Modelled from the spec: `app/models.py` is not part of the sources.
A learning outcome ("Topic" in the spec) belongs to one day and carries a
display label (`lo.day`, `lo.topic` in the code). -/
structure LearningOutcome where
  day : Int
  topic : String
deriving DecidableEq, Repr

/-- Modelled from the spec: `app/models.py` is not part of the sources.
An assessment entry belongs to one day and carries a duration in minutes
(`am.day`, `am.duration_minutes` in the code). -/
structure AssessmentMode where
  day : Int
  duration_minutes : Int
deriving DecidableEq, Repr

/-- Modelled from the spec: `app/models.py` is not part of the sources.
The slice of `ExtractedData` that `_build_schedule` consumes. -/
structure ExtractedData where
  learning_outcomes : List LearningOutcome
  assessment_modes : List AssessmentMode
deriving DecidableEq, Repr

/-- A schedule slot before time formatting: start and stop are minutes
from midnight.  The source builds each slot as a dict
`{"start": _fmt_time(...), "end": _fmt_time(...), "label": ...}`; the
`stop` field is the source's `end` (a reserved word in Lean). -/
structure RawSlot where
  start : Int
  stop : Int
  label : String
deriving DecidableEq, Repr

/-- A formatted slot, with clock-time strings, as the source emits. -/
structure Slot where
  start : String
  stop : String
  label : String
deriving DecidableEq, Repr

namespace Docx

/-- `DAY_START_MINUTES = 9 * 60` from `generator_lesson_plan.py`. -/
def DAY_START_MINUTES : Int := 9 * 60

/-- `LUNCH_DURATION = 60` from `generator_lesson_plan.py`. -/
def LUNCH_DURATION : Int := 60

/-- `DAY_TOTAL_MINUTES = 480` from `generator_lesson_plan.py`. -/
def DAY_TOTAL_MINUTES : Int := 480

/-- Python's `f"{m:02d}"` for the minute remainder, which is always in
`[0, 60)` here since the modulus 60 is positive. -/
def pad2 (m : Int) : String :=
  if m < 10 then "0" ++ toString m else toString m

/-- `_fmt_time` from `generator_lesson_plan.py`: 12-hour clock string
without AM/PM.  `//` is floor division (`Int.fdiv`), `%` with positive
modulus is `Int.emod`. -/
def _fmt_time (minutes_from_midnight : Int) : String :=
  let h := Int.fdiv minutes_from_midnight 60
  let m := Int.emod minutes_from_midnight 60
  let h2 := if h > 12 then h - 12 else if h = 0 then 12 else h
  toString h2 ++ ":" ++ pad2 m

/-- The `for topic in topics:` loop of `_build_schedule`, carrying the
running clock `current` and the `lunch_inserted` flag.  Before each
topic, if lunch was not yet inserted and `current >= 13 * 60 - 10`, a
"Lunch Break" slot of `LUNCH_DURATION` is emitted first. -/
def topicWalk (per_topic : Int) : List String → Int → Bool → List RawSlot × Int × Bool
  | [], current, lunch_inserted => ([], current, lunch_inserted)
  | topic :: rest, current, lunch_inserted =>
    if lunch_inserted = false ∧ 13 * 60 - 10 ≤ current then
      let lunch_end := current + LUNCH_DURATION
      let r := topicWalk per_topic rest (lunch_end + per_topic) true
      (⟨current, lunch_end, "Lunch Break"⟩ ::
        ⟨lunch_end, lunch_end + per_topic, topic⟩ :: r.1, r.2.1, r.2.2)
    else
      let r := topicWalk per_topic rest (current + per_topic) lunch_inserted
      (⟨current, current + per_topic, topic⟩ :: r.1, r.2.1, r.2.2)

/-- `per_topic = instruction_min // num_topics if num_topics else 0`,
with `instruction_min = DAY_TOTAL_MINUTES - assess_min`. -/
def per_topic (topics : List String) (assess_min : Int) : Int :=
  if topics.length = 0 then 0
  else Int.fdiv (DAY_TOTAL_MINUTES - assess_min) topics.length

/-- The state after the topic loop: slots so far, the clock, the flag. -/
def walkResult (topics : List String) (assess_min : Int) : List RawSlot × Int × Bool :=
  topicWalk (per_topic topics assess_min) topics DAY_START_MINUTES false

/-- The post-loop lunch fallback: `if not lunch_inserted and assess_min > 0`,
append a "Lunch Break" slot and advance the clock. -/
def afterFallbackLunch (topics : List String) (assess_min : Int) : List RawSlot × Int :=
  let r := walkResult topics assess_min
  if r.2.2 = false ∧ 0 < assess_min then
    (r.1 ++ [⟨r.2.1, r.2.1 + LUNCH_DURATION, "Lunch Break"⟩], r.2.1 + LUNCH_DURATION)
  else (r.1, r.2.1)

/-- One day's slot list (pre-formatting): topic loop, lunch fallback,
then `if assess_min > 0` the final "Assessment" slot. -/
def buildDaySlots (topics : List String) (assess_min : Int) : List RawSlot :=
  let r := afterFallbackLunch topics assess_min
  if 0 < assess_min then r.1 ++ [⟨r.2, r.2 + assess_min, "Assessment"⟩] else r.1

/-- `topics_by_day.get(day, [])`: the topics of a day, in input order
(the Python grouping dict appends in input order). -/
def topics_for (data : ExtractedData) (day : Int) : List String :=
  (data.learning_outcomes.filter (fun lo => lo.day = day)).map (fun lo => lo.topic)

/-- `assess_by_day.get(day, 0)`: summed assessment minutes of a day. -/
def assess_for (data : ExtractedData) (day : Int) : Int :=
  data.assessment_modes.foldl
    (fun acc am => if am.day = day then acc + am.duration_minutes else acc) 0

/-- `num_days = max(topics_by_day.keys()) if topics_by_day else 1`. -/
def num_days (data : ExtractedData) : Int :=
  match data.learning_outcomes.map (fun lo => lo.day) with
  | [] => 1
  | d :: ds => ds.foldl max d

/-- `_build_schedule` with the slots kept as minutes (pre-formatting):
`for day in range(1, num_days + 1): schedule[day] = slots`. -/
def _build_schedule_raw (data : ExtractedData) : List (Int × List RawSlot) :=
  (List.range (num_days data).toNat).map
    (fun (i : Nat) => ((i : Int) + 1,
      buildDaySlots (topics_for data ((i : Int) + 1)) (assess_for data ((i : Int) + 1))))

/-- Formatting of one slot, as done at each `slots.append` in the source. -/
def fmtSlot (s : RawSlot) : Slot :=
  ⟨_fmt_time s.start, _fmt_time s.stop, s.label⟩

/-- `_build_schedule` from `generator_lesson_plan.py`: the source formats
each slot's times at append time, which equals formatting the raw
schedule pointwise. -/
def _build_schedule (data : ExtractedData) : List (Int × List Slot) :=
  (_build_schedule_raw data).map (fun p => (p.1, p.2.map fmtSlot))

end Docx

namespace Pdf

/-- `DAY_START_MINUTES = 9 * 60` from `generator_lesson_plan_pdf.py`. -/
def DAY_START_MINUTES : Int := 9 * 60

/-- `LUNCH_DURATION = 60` from `generator_lesson_plan_pdf.py`. -/
def LUNCH_DURATION : Int := 60

/-- `DAY_TOTAL_MINUTES = 480` from `generator_lesson_plan_pdf.py`. -/
def DAY_TOTAL_MINUTES : Int := 480

/-- Python's `f"{m:02d}"` (PDF backend copy). -/
def pad2 (m : Int) : String :=
  if m < 10 then "0" ++ toString m else toString m

/-- `_fmt_time` from `generator_lesson_plan_pdf.py`. -/
def _fmt_time (minutes_from_midnight : Int) : String :=
  let h := Int.fdiv minutes_from_midnight 60
  let m := Int.emod minutes_from_midnight 60
  let h2 := if h > 12 then h - 12 else if h = 0 then 12 else h
  toString h2 ++ ":" ++ pad2 m

/-- The `for topic in topics:` loop of the PDF backend's `_build_schedule`. -/
def topicWalk (per_topic : Int) : List String → Int → Bool → List RawSlot × Int × Bool
  | [], current, lunch_inserted => ([], current, lunch_inserted)
  | topic :: rest, current, lunch_inserted =>
    if lunch_inserted = false ∧ 13 * 60 - 10 ≤ current then
      let lunch_end := current + LUNCH_DURATION
      let r := topicWalk per_topic rest (lunch_end + per_topic) true
      (⟨current, lunch_end, "Lunch Break"⟩ ::
        ⟨lunch_end, lunch_end + per_topic, topic⟩ :: r.1, r.2.1, r.2.2)
    else
      let r := topicWalk per_topic rest (current + per_topic) lunch_inserted
      (⟨current, current + per_topic, topic⟩ :: r.1, r.2.1, r.2.2)

/-- `per_topic = instruction_min // num_topics if num_topics else 0` (PDF copy). -/
def per_topic (topics : List String) (assess_min : Int) : Int :=
  if topics.length = 0 then 0
  else Int.fdiv (DAY_TOTAL_MINUTES - assess_min) topics.length

/-- The state after the topic loop (PDF copy). -/
def walkResult (topics : List String) (assess_min : Int) : List RawSlot × Int × Bool :=
  topicWalk (per_topic topics assess_min) topics DAY_START_MINUTES false

/-- The post-loop lunch fallback (PDF copy). -/
def afterFallbackLunch (topics : List String) (assess_min : Int) : List RawSlot × Int :=
  let r := walkResult topics assess_min
  if r.2.2 = false ∧ 0 < assess_min then
    (r.1 ++ [⟨r.2.1, r.2.1 + LUNCH_DURATION, "Lunch Break"⟩], r.2.1 + LUNCH_DURATION)
  else (r.1, r.2.1)

/-- One day's slot list, pre-formatting (PDF copy). -/
def buildDaySlots (topics : List String) (assess_min : Int) : List RawSlot :=
  let r := afterFallbackLunch topics assess_min
  if 0 < assess_min then r.1 ++ [⟨r.2, r.2 + assess_min, "Assessment"⟩] else r.1

/-- `topics_by_day.get(day, [])` (PDF copy). -/
def topics_for (data : ExtractedData) (day : Int) : List String :=
  (data.learning_outcomes.filter (fun lo => lo.day = day)).map (fun lo => lo.topic)

/-- `assess_by_day.get(day, 0)` (PDF copy). -/
def assess_for (data : ExtractedData) (day : Int) : Int :=
  data.assessment_modes.foldl
    (fun acc am => if am.day = day then acc + am.duration_minutes else acc) 0

/-- `num_days = max(topics_by_day.keys()) if topics_by_day else 1` (PDF copy). -/
def num_days (data : ExtractedData) : Int :=
  match data.learning_outcomes.map (fun lo => lo.day) with
  | [] => 1
  | d :: ds => ds.foldl max d

/-- The PDF backend's `_build_schedule` with slots kept as minutes. -/
def _build_schedule_raw (data : ExtractedData) : List (Int × List RawSlot) :=
  (List.range (num_days data).toNat).map
    (fun (i : Nat) => ((i : Int) + 1,
      buildDaySlots (topics_for data ((i : Int) + 1)) (assess_for data ((i : Int) + 1))))

/-- Formatting of one slot (PDF copy). -/
def fmtSlot (s : RawSlot) : Slot :=
  ⟨_fmt_time s.start, _fmt_time s.stop, s.label⟩

/-- `_build_schedule` from `generator_lesson_plan_pdf.py`. -/
def _build_schedule (data : ExtractedData) : List (Int × List Slot) :=
  (_build_schedule_raw data).map (fun p => (p.1, p.2.map fmtSlot))

end Pdf

/-! ## Analysis helpers (about the `Docx` copy, which `Pdf` provably equals) -/

/-- Whether the running clock, checked before each topic exactly as the
lunch-insertion test does, ever reaches `13 * 60 - 10` during the walk. -/
def reaches (per : Int) : List String → Int → Bool
  | [], _ => false
  | _ :: rest, current =>
    if 13 * 60 - 10 ≤ current then true else reaches per rest (current + per)

/-- The topic walk with lunch already inserted: one slot per topic, each
of duration `per`, back to back from `current`. -/
def walkNoLunch (per : Int) : List String → Int → List RawSlot
  | [], _ => []
  | topic :: rest, current =>
    ⟨current, current + per, topic⟩ :: walkNoLunch per rest (current + per)

/-- How many slots of a list are labelled "Lunch Break". -/
def lunchCount (l : List RawSlot) : Nat :=
  (l.filter (fun s => s.label = "Lunch Break")).length

/-- `chain c l c'`: the slots of `l` are contiguous, the first starting
at `c`, each next one starting where the previous stopped, ending at `c'`. -/
def chain : Int → List RawSlot → Int → Prop
  | c, [], c' => c = c'
  | c, s :: l, c' => s.start = c ∧ chain s.stop l c'

/-! ## Structural lemmas about the topic walk -/

lemma walkNoLunch_length (p : Int) : ∀ (t : List String) (cur : Int),
    (walkNoLunch p t cur).length = t.length
  | [], _ => rfl
  | _ :: rest, cur => by
    simp [walkNoLunch, walkNoLunch_length p rest (cur + p)]

lemma mem_walkNoLunch {p : Int} : ∀ {t : List String} {cur : Int} {s : RawSlot},
    s ∈ walkNoLunch p t cur →
    ∃ i : Fin t.length, s = ⟨cur + p * i, cur + p * i + p, t.get i⟩
  | [], _, _, h => by simp [walkNoLunch] at h
  | topic :: rest, cur, s, h => by
    simp only [walkNoLunch, List.mem_cons] at h
    rcases h with h | h
    · exact ⟨⟨0, by simp⟩, by simpa using h⟩
    · obtain ⟨i, hi⟩ := mem_walkNoLunch h
      refine ⟨i.succ, ?_⟩
      subst hi
      simp only [List.get_cons_succ, RawSlot.mk.injEq, Fin.val_succ]
      push_cast
      refine ⟨by ring, by ring, rfl⟩
  termination_by t _ _ _ => t.length

lemma walkNoLunch_label {p : Int} {t : List String} {cur : Int} {s : RawSlot}
    (h : s ∈ walkNoLunch p t cur) : s.label ∈ t := by
  obtain ⟨i, hi⟩ := mem_walkNoLunch h
  simp [hi, List.get_mem]

lemma walkNoLunch_duration {p : Int} {t : List String} {cur : Int} {s : RawSlot}
    (h : s ∈ walkNoLunch p t cur) : s.stop = s.start + p := by
  obtain ⟨i, hi⟩ := mem_walkNoLunch h
  simp [hi]

lemma walkNoLunch_labels (p : Int) : ∀ (t : List String) (cur : Int),
    (walkNoLunch p t cur).map RawSlot.label = t
  | [], _ => rfl
  | _ :: rest, cur => by
    simp [walkNoLunch, walkNoLunch_labels p rest (cur + p)]

lemma topicWalk_true (p : Int) : ∀ (t : List String) (cur : Int),
    Docx.topicWalk p t cur true = (walkNoLunch p t cur, cur + p * t.length, true)
  | [], cur => by simp [Docx.topicWalk, walkNoLunch]
  | topic :: rest, cur => by
    simp only [Docx.topicWalk, walkNoLunch, topicWalk_true p rest (cur + p),
      List.length_cons, Prod.mk.injEq]
    norm_num
    ring

lemma topicWalk_not_reaches (p : Int) : ∀ (t : List String) (cur : Int),
    reaches p t cur = false →
    Docx.topicWalk p t cur false = (walkNoLunch p t cur, cur + p * t.length, false)
  | [], cur, _ => by simp [Docx.topicWalk, walkNoLunch]
  | topic :: rest, cur, h => by
    rw [reaches] at h
    by_cases hle : (13 * 60 - 10 : Int) ≤ cur
    · rw [if_pos hle] at h
      simp at h
    · rw [if_neg hle] at h
      simp only [Docx.topicWalk, walkNoLunch, List.length_cons, Prod.mk.injEq]
      rw [if_neg (fun hcond => hle hcond.2)]
      simp only [topicWalk_not_reaches p rest (cur + p) h]
      norm_num
      ring

/-- Closed form of the walk when the lunch threshold is crossed: the
topics split as `t₁ ++ s :: t₂`, the clock stays below the threshold
before each of the first `t₁.length` topics, reaches it before `s`, and
the output is the `t₁` slots, the lunch slot, then the remaining topic
slots shifted by the lunch duration. -/
lemma topicWalk_reaches (p : Int) : ∀ (t : List String) (cur : Int),
    reaches p t cur = true →
    ∃ t₁ s t₂, t = t₁ ++ s :: t₂ ∧
      (∀ i : Nat, i < t₁.length → cur + p * i < 13 * 60 - 10) ∧
      13 * 60 - 10 ≤ cur + p * t₁.length ∧
      Docx.topicWalk p t cur false =
        (walkNoLunch p t₁ cur ++
          ⟨cur + p * t₁.length, cur + p * t₁.length + Docx.LUNCH_DURATION, "Lunch Break"⟩ ::
          walkNoLunch p (s :: t₂) (cur + p * t₁.length + Docx.LUNCH_DURATION),
         cur + p * t₁.length + Docx.LUNCH_DURATION + p * (t₂.length + 1), true)
  | [], cur, h => by simp [reaches] at h
  | topic :: rest, cur, h => by
    by_cases hle : (13 * 60 - 10 : Int) ≤ cur
    · refine ⟨[], topic, rest, rfl, by simp, by simpa using hle, ?_⟩
      simp only [Docx.topicWalk, walkNoLunch]
      rw [if_pos ⟨trivial, hle⟩]
      simp only [topicWalk_true p rest (cur + Docx.LUNCH_DURATION + p), List.length_nil,
        List.nil_append, Prod.mk.injEq, walkNoLunch_length]
      norm_num
      ring
    · rw [reaches, if_neg hle] at h
      obtain ⟨t₁, s, t₂, ht, hlt, hge, hw⟩ := topicWalk_reaches p rest (cur + p) h
      have hlen : ((t₁.length + 1 : Nat) : Int) = (t₁.length : Int) + 1 := by push_cast; ring
      refine ⟨topic :: t₁, s, t₂, by simp [ht], ?_, ?_, ?_⟩
      · intro i hi
        cases i with
        | zero =>
          simpa using lt_of_not_le hle
        | succ j =>
          have hj := hlt j (by simpa using hi)
          have : cur + p * ((j + 1 : Nat) : Int) = cur + p + p * (j : Int) := by
            push_cast; ring
          rw [this]
          exact hj
      · rw [List.length_cons, hlen]
        calc (13 * 60 - 10 : Int) ≤ cur + p + p * t₁.length := hge
        _ = cur + p * ((t₁.length : Int) + 1) := by ring
      · simp only [Docx.topicWalk]
        rw [if_neg (fun hcond => hle hcond.2)]
        simp only [hw, walkNoLunch, List.length_cons, hlen, Prod.mk.injEq]
        refine ⟨?_, by ring, trivial⟩
        have h1 : cur + p + p * (t₁.length : Int) = cur + p * ((t₁.length : Int) + 1) := by ring
        simp [h1, mul_add]

/-! ## Contiguity -/

lemma chain_append (l₁ l₂ : List RawSlot) :
    ∀ {c c' c'' : Int}, chain c l₁ c' → chain c' l₂ c'' → chain c (l₁ ++ l₂) c'' := by
  induction l₁ with
  | nil =>
    intro c c' c'' h1 h2
    simp only [chain] at h1
    subst h1
    simpa using h2
  | cons s l ih =>
    intro c c' c'' h1 h2
    simp only [chain, List.cons_append] at h1 ⊢
    exact ⟨h1.1, ih h1.2 h2⟩

lemma chain_walkNoLunch (p : Int) : ∀ (t : List String) (cur : Int),
    chain cur (walkNoLunch p t cur) (cur + p * t.length)
  | [], cur => by simp [walkNoLunch, chain]
  | topic :: rest, cur => by
    have harith : cur + p * (((topic :: rest).length : Nat) : Int) =
        (cur + p) + p * rest.length := by
      simp only [List.length_cons]
      push_cast
      ring
    rw [harith]
    exact ⟨rfl, chain_walkNoLunch p rest (cur + p)⟩

lemma chain_get : ∀ (l : List RawSlot) {c c' : Int}, chain c l c' →
    ∀ (i : Nat) (h2 : i + 1 < l.length),
      (l.get ⟨i, Nat.lt_of_succ_lt h2⟩).stop = (l.get ⟨i + 1, h2⟩).start := by
  intro l
  induction l with
  | nil =>
    intro c c' _ i h2
    simp at h2
  | cons s l ih =>
    intro c c' h i h2
    simp only [chain] at h
    cases i with
    | zero =>
      cases l with
      | nil => simp at h2
      | cons r l' =>
        have h' := h.2
        simp only [chain] at h'
        simpa using h'.1.symm
    | succ j =>
      have h2' : j + 1 < l.length := by simpa using h2
      simpa using ih h.2 j h2'

lemma chain_getLast : ∀ (l : List RawSlot) {c c' : Int}, chain c l c' → l ≠ [] →
    ∃ s, l.getLast? = some s ∧ s.stop = c' := by
  intro l
  induction l with
  | nil => intro _ _ _ hne; exact absurd rfl hne
  | cons s l ih =>
    intro c c' h _
    simp only [chain] at h
    cases l with
    | nil =>
      refine ⟨s, rfl, ?_⟩
      simpa [chain] using h.2
    | cons r l' =>
      obtain ⟨u, hu, hu2⟩ := ih h.2 (by simp)
      exact ⟨u, by simpa [List.getLast?_cons_cons] using hu, hu2⟩

lemma chain_walkResult (t : List String) (a : Int) :
    chain Docx.DAY_START_MINUTES (Docx.walkResult t a).1 (Docx.walkResult t a).2.1 := by
  unfold Docx.walkResult
  cases hre : reaches (Docx.per_topic t a) t Docx.DAY_START_MINUTES with
  | false =>
    rw [topicWalk_not_reaches _ _ _ hre]
    exact chain_walkNoLunch _ _ _
  | true =>
    obtain ⟨t₁, s, t₂, ht, hlt, hge, hw⟩ :=
      topicWalk_reaches (Docx.per_topic t a) t Docx.DAY_START_MINUTES hre
    rw [hw]
    refine chain_append _ _ (chain_walkNoLunch _ _ _) ?_
    have hch := chain_walkNoLunch (Docx.per_topic t a) (s :: t₂)
      (Docx.DAY_START_MINUTES + Docx.per_topic t a * t₁.length + Docx.LUNCH_DURATION)
    have hlen : ((((s :: t₂).length : Nat)) : Int) = (t₂.length : Int) + 1 := by
      simp only [List.length_cons]
      push_cast
      ring
    rw [hlen] at hch
    exact ⟨rfl, hch⟩

lemma chain_afterFallbackLunch (t : List String) (a : Int) :
    chain Docx.DAY_START_MINUTES (Docx.afterFallbackLunch t a).1 (Docx.afterFallbackLunch t a).2 := by
  have h := chain_walkResult t a
  simp only [Docx.afterFallbackLunch]
  by_cases hc : (Docx.walkResult t a).2.2 = false ∧ 0 < a
  · rw [if_pos hc]
    exact chain_append _ _ h (by simp [chain])
  · rw [if_neg hc]
    exact h

lemma chain_buildDaySlots (t : List String) (a : Int) :
    ∃ c', chain Docx.DAY_START_MINUTES (Docx.buildDaySlots t a) c' := by
  have h := chain_afterFallbackLunch t a
  simp only [Docx.buildDaySlots]
  by_cases hc : 0 < a
  · rw [if_pos hc]
    refine ⟨(Docx.afterFallbackLunch t a).2 + a, chain_append _ _ h ?_⟩
    simp [chain]
  · rw [if_neg hc]
    exact ⟨_, h⟩

/-! ## The day map -/

lemma mem_build_schedule_raw {data : ExtractedData} {d : Int} {slots : List RawSlot} :
    (d, slots) ∈ Docx._build_schedule_raw data ↔
      1 ≤ d ∧ d ≤ Docx.num_days data ∧
        slots = Docx.buildDaySlots (Docx.topics_for data d) (Docx.assess_for data d) := by
  constructor
  · intro h
    obtain ⟨i, hi, heq⟩ := List.mem_map.mp h
    have hi' : i < (Docx.num_days data).toNat := List.mem_range.mp hi
    have h1 : ((i : Int) + 1) = d := congrArg Prod.fst heq
    have h2 : Docx.buildDaySlots (Docx.topics_for data ((i : Int) + 1))
        (Docx.assess_for data ((i : Int) + 1)) = slots := congrArg Prod.snd heq
    subst h1
    exact ⟨by omega, by omega, h2.symm⟩
  · rintro ⟨h1, h2, h3⟩
    refine List.mem_map.mpr ⟨(d - 1).toNat, List.mem_range.mpr (by omega), ?_⟩
    have hd : ((d - 1).toNat : Int) + 1 = d := by omega
    rw [hd, h3]

/-! ## Characterization of the walk result -/

lemma walkResult_flag (t : List String) (a : Int) :
    (Docx.walkResult t a).2.2 = reaches (Docx.per_topic t a) t Docx.DAY_START_MINUTES := by
  cases hre : reaches (Docx.per_topic t a) t Docx.DAY_START_MINUTES with
  | false => rw [Docx.walkResult, topicWalk_not_reaches _ _ _ hre]
  | true =>
    obtain ⟨t₁, s, t₂, ht, hlt, hge, hw⟩ :=
      topicWalk_reaches (Docx.per_topic t a) t Docx.DAY_START_MINUTES hre
    rw [Docx.walkResult, hw]

lemma walkResult_length (t : List String) (a : Int) :
    (Docx.walkResult t a).1.length = t.length +
      (if reaches (Docx.per_topic t a) t Docx.DAY_START_MINUTES = true then 1 else 0) := by
  cases hre : reaches (Docx.per_topic t a) t Docx.DAY_START_MINUTES with
  | false =>
    rw [Docx.walkResult, topicWalk_not_reaches _ _ _ hre]
    simp [walkNoLunch_length]
  | true =>
    obtain ⟨t₁, s, t₂, ht, hlt, hge, hw⟩ :=
      topicWalk_reaches (Docx.per_topic t a) t Docx.DAY_START_MINUTES hre
    rw [Docx.walkResult, hw]
    simp [walkNoLunch_length, ht]
    omega

lemma walkResult_current (t : List String) (a : Int) :
    (Docx.walkResult t a).2.1 = Docx.DAY_START_MINUTES + Docx.per_topic t a * t.length +
      (if reaches (Docx.per_topic t a) t Docx.DAY_START_MINUTES = true
        then Docx.LUNCH_DURATION else 0) := by
  cases hre : reaches (Docx.per_topic t a) t Docx.DAY_START_MINUTES with
  | false =>
    rw [Docx.walkResult, topicWalk_not_reaches _ _ _ hre]
    simp
  | true =>
    obtain ⟨t₁, s, t₂, ht, hlt, hge, hw⟩ :=
      topicWalk_reaches (Docx.per_topic t a) t Docx.DAY_START_MINUTES hre
    rw [Docx.walkResult, hw]
    simp only [ht, List.length_append, List.length_cons, if_pos rfl]
    push_cast
    ring

lemma walkResult_label {t : List String} {a : Int} {s : RawSlot}
    (hs : s ∈ (Docx.walkResult t a).1) : s.label ∈ t ∨ s.label = "Lunch Break" := by
  cases hre : reaches (Docx.per_topic t a) t Docx.DAY_START_MINUTES with
  | false =>
    rw [Docx.walkResult, topicWalk_not_reaches _ _ _ hre] at hs
    exact Or.inl (walkNoLunch_label hs)
  | true =>
    obtain ⟨t₁, s', t₂, ht, hlt, hge, hw⟩ :=
      topicWalk_reaches (Docx.per_topic t a) t Docx.DAY_START_MINUTES hre
    rw [Docx.walkResult, hw] at hs
    simp only [List.mem_append, List.mem_cons] at hs
    rcases hs with hs | hs | hs
    · exact Or.inl (ht ▸ List.mem_append_left _ (walkNoLunch_label hs))
    · exact Or.inr (by rw [hs])
    · exact Or.inl (ht ▸ List.mem_append_right _ (walkNoLunch_label hs))

/-- The day's slot list decomposed into the walk slots, the optional
fallback lunch slot, and the optional assessment slot. -/
lemma buildDaySlots_decomp (t : List String) (a : Int) :
    Docx.buildDaySlots t a =
      (Docx.walkResult t a).1
      ++ (if reaches (Docx.per_topic t a) t Docx.DAY_START_MINUTES = false ∧ 0 < a then
            [⟨(Docx.walkResult t a).2.1, (Docx.walkResult t a).2.1 + Docx.LUNCH_DURATION,
              "Lunch Break"⟩]
          else [])
      ++ (if 0 < a then
            [⟨(Docx.afterFallbackLunch t a).2, (Docx.afterFallbackLunch t a).2 + a,
              "Assessment"⟩]
          else []) := by
  cases hre : reaches (Docx.per_topic t a) t Docx.DAY_START_MINUTES with
  | false =>
    by_cases h2 : 0 < a
    · simp [Docx.buildDaySlots, Docx.afterFallbackLunch, walkResult_flag, hre, h2,
        List.append_assoc]
    · simp [Docx.buildDaySlots, Docx.afterFallbackLunch, walkResult_flag, hre, h2]
  | true =>
    by_cases h2 : 0 < a
    · simp [Docx.buildDaySlots, Docx.afterFallbackLunch, walkResult_flag, hre, h2]
    · simp [Docx.buildDaySlots, Docx.afterFallbackLunch, walkResult_flag, hre, h2]

lemma afterFallbackLunch_current (t : List String) (a : Int) :
    (Docx.afterFallbackLunch t a).2 = (Docx.walkResult t a).2.1 +
      (if reaches (Docx.per_topic t a) t Docx.DAY_START_MINUTES = false ∧ 0 < a
        then Docx.LUNCH_DURATION else 0) := by
  cases hre : reaches (Docx.per_topic t a) t Docx.DAY_START_MINUTES with
  | false =>
    by_cases h2 : 0 < a
    · simp [Docx.afterFallbackLunch, walkResult_flag, hre, h2]
    · simp [Docx.afterFallbackLunch, walkResult_flag, hre, h2]
  | true =>
    simp [Docx.afterFallbackLunch, walkResult_flag, hre]

/-! ## Durations and labels -/

lemma walkNoLunch_dursum (p : Int) : ∀ (t : List String) (cur : Int),
    ((walkNoLunch p t cur).map (fun s => s.stop - s.start)).sum = p * t.length
  | [], _ => by simp [walkNoLunch]
  | topic :: rest, cur => by
    simp only [walkNoLunch, List.map_cons, List.sum_cons,
      walkNoLunch_dursum p rest (cur + p), List.length_cons]
    push_cast
    ring

lemma lunchCount_append (l₁ l₂ : List RawSlot) :
    lunchCount (l₁ ++ l₂) = lunchCount l₁ + lunchCount l₂ := by
  simp [lunchCount, List.filter_append]

lemma lunchCount_walkNoLunch {p : Int} {t : List String} {cur : Int}
    (h : "Lunch Break" ∉ t) : lunchCount (walkNoLunch p t cur) = 0 := by
  unfold lunchCount
  rw [List.length_eq_zero, List.filter_eq_nil_iff]
  intro s hs
  simp only [decide_eq_true_eq]
  exact fun heq => h (heq ▸ walkNoLunch_label hs)

lemma lunchCount_walkResult {t : List String} {a : Int} (h : "Lunch Break" ∉ t) :
    lunchCount (Docx.walkResult t a).1 =
      (if reaches (Docx.per_topic t a) t Docx.DAY_START_MINUTES = true then 1 else 0) := by
  cases hre : reaches (Docx.per_topic t a) t Docx.DAY_START_MINUTES with
  | false =>
    rw [Docx.walkResult, topicWalk_not_reaches _ _ _ hre]
    simp [lunchCount_walkNoLunch h]
  | true =>
    obtain ⟨t₁, s, t₂, ht, hlt, hge, hw⟩ :=
      topicWalk_reaches (Docx.per_topic t a) t Docx.DAY_START_MINUTES hre
    rw [Docx.walkResult, hw]
    have h₁ : "Lunch Break" ∉ t₁ := fun hx => h (ht ▸ List.mem_append_left _ hx)
    have h₂ : "Lunch Break" ∉ s :: t₂ := fun hx => h (ht ▸ List.mem_append_right _ hx)
    simp only [if_pos rfl]
    have := lunchCount_append (walkNoLunch (Docx.per_topic t a) t₁ Docx.DAY_START_MINUTES)
      (⟨Docx.DAY_START_MINUTES + Docx.per_topic t a * t₁.length,
        Docx.DAY_START_MINUTES + Docx.per_topic t a * t₁.length + Docx.LUNCH_DURATION,
        "Lunch Break"⟩ ::
        walkNoLunch (Docx.per_topic t a) (s :: t₂)
          (Docx.DAY_START_MINUTES + Docx.per_topic t a * t₁.length + Docx.LUNCH_DURATION))
    rw [this, lunchCount_walkNoLunch h₁]
    have hcons : lunchCount (⟨Docx.DAY_START_MINUTES + Docx.per_topic t a * t₁.length,
        Docx.DAY_START_MINUTES + Docx.per_topic t a * t₁.length + Docx.LUNCH_DURATION,
        "Lunch Break"⟩ ::
        walkNoLunch (Docx.per_topic t a) (s :: t₂)
          (Docx.DAY_START_MINUTES + Docx.per_topic t a * t₁.length + Docx.LUNCH_DURATION)) =
        1 + lunchCount (walkNoLunch (Docx.per_topic t a) (s :: t₂)
          (Docx.DAY_START_MINUTES + Docx.per_topic t a * t₁.length + Docx.LUNCH_DURATION)) := by
      simp [lunchCount]
      omega
    rw [hcons, lunchCount_walkNoLunch h₂]
    simp

/-! ## The two backends compute the same schedule -/

lemma pdf_topicWalk_eq (p : Int) : ∀ (t : List String) (cur : Int) (fl : Bool),
    Pdf.topicWalk p t cur fl = Docx.topicWalk p t cur fl
  | [], _, _ => rfl
  | topic :: rest, cur, fl => by
    have hL : Pdf.LUNCH_DURATION = Docx.LUNCH_DURATION := rfl
    simp only [Pdf.topicWalk, Docx.topicWalk, hL, pdf_topicWalk_eq p rest]

lemma pdf_walkResult_eq (t : List String) (a : Int) :
    Pdf.walkResult t a = Docx.walkResult t a := by
  unfold Pdf.walkResult Docx.walkResult
  rw [show Pdf.per_topic = Docx.per_topic from rfl,
    show Pdf.DAY_START_MINUTES = Docx.DAY_START_MINUTES from rfl, pdf_topicWalk_eq]

lemma pdf_afterFallbackLunch_eq (t : List String) (a : Int) :
    Pdf.afterFallbackLunch t a = Docx.afterFallbackLunch t a := by
  unfold Pdf.afterFallbackLunch Docx.afterFallbackLunch
  rw [pdf_walkResult_eq, show Pdf.LUNCH_DURATION = Docx.LUNCH_DURATION from rfl]

lemma pdf_buildDaySlots_eq (t : List String) (a : Int) :
    Pdf.buildDaySlots t a = Docx.buildDaySlots t a := by
  unfold Pdf.buildDaySlots Docx.buildDaySlots
  rw [pdf_afterFallbackLunch_eq]

lemma pdf_raw_eq (data : ExtractedData) :
    Pdf._build_schedule_raw data = Docx._build_schedule_raw data := by
  unfold Pdf._build_schedule_raw Docx._build_schedule_raw
  rw [show Pdf.num_days = Docx.num_days from rfl]
  have hfun : (fun (i : Nat) => ((i : Int) + 1,
      Pdf.buildDaySlots (Pdf.topics_for data ((i : Int) + 1)) (Pdf.assess_for data ((i : Int) + 1)))) =
      (fun (i : Nat) => ((i : Int) + 1,
      Docx.buildDaySlots (Docx.topics_for data ((i : Int) + 1))
        (Docx.assess_for data ((i : Int) + 1)))) := by
    funext i
    rw [show Pdf.topics_for = Docx.topics_for from rfl,
      show Pdf.assess_for = Docx.assess_for from rfl, pdf_buildDaySlots_eq]
  rw [hfun]

/-! ## `num_days` is the maximum topic day -/

lemma self_le_foldl_max : ∀ (ds : List Int) (d : Int), d ≤ ds.foldl max d
  | [], _ => le_refl _
  | x :: xs, d =>
    le_trans (le_max_left d x) (self_le_foldl_max xs (max d x))

lemma foldl_max_le : ∀ (ds : List Int) (d x : Int), x ∈ ds → x ≤ ds.foldl max d
  | [], _, _, hx => by simp at hx
  | y :: ys, d, x, hx => by
    rcases List.mem_cons.mp hx with h | h
    · subst h
      exact le_trans (le_max_right d x) (self_le_foldl_max ys (max d x))
    · exact foldl_max_le ys (max d y) x h

lemma foldl_max_mem : ∀ (ds : List Int) (d : Int), ds.foldl max d = d ∨ ds.foldl max d ∈ ds
  | [], _ => Or.inl rfl
  | x :: xs, d => by
    rw [List.foldl_cons]
    rcases foldl_max_mem xs (max d x) with h | h
    · rcases max_choice d x with hm | hm
      · exact Or.inl (by rw [h, hm])
      · refine Or.inr ?_
        rw [h, hm]
        exact List.mem_cons_self _ _
    · exact Or.inr (List.mem_cons_of_mem _ h)

lemma num_days_nil {data : ExtractedData} (h : data.learning_outcomes = []) :
    Docx.num_days data = 1 := by
  unfold Docx.num_days
  rw [h]
  rfl

lemma num_days_cons {data : ExtractedData} {d : Int} {ds : List Int}
    (hl : data.learning_outcomes.map (fun lo => lo.day) = d :: ds) :
    Docx.num_days data = ds.foldl max d := by
  unfold Docx.num_days
  rw [hl]

lemma num_days_ge {data : ExtractedData} {lo : LearningOutcome}
    (h : lo ∈ data.learning_outcomes) : lo.day ≤ Docx.num_days data := by
  cases hl : data.learning_outcomes.map (fun lo => lo.day) with
  | nil =>
    rw [List.map_eq_nil_iff] at hl
    rw [hl] at h
    simp at h
  | cons d ds =>
    rw [num_days_cons hl]
    have hmem : lo.day ∈ d :: ds := hl ▸ List.mem_map_of_mem _ h
    rcases List.mem_cons.mp hmem with hx | hx
    · exact hx ▸ self_le_foldl_max ds d
    · exact foldl_max_le ds d _ hx

lemma num_days_attained {data : ExtractedData} (h : data.learning_outcomes ≠ []) :
    ∃ lo ∈ data.learning_outcomes, lo.day = Docx.num_days data := by
  cases hl : data.learning_outcomes.map (fun lo => lo.day) with
  | nil =>
    rw [List.map_eq_nil_iff] at hl
    exact absurd hl h
  | cons d ds =>
    have hmem : ds.foldl max d ∈ d :: ds := by
      rcases foldl_max_mem ds d with hx | hx
      · rw [hx]
        exact List.mem_cons_self _ _
      · exact List.mem_cons_of_mem _ hx
    rw [← hl] at hmem
    obtain ⟨lo, hlo, hd⟩ := List.mem_map.mp hmem
    exact ⟨lo, hlo, hd.trans (num_days_cons hl).symm⟩

/-! ## A fallible embedding: the only Python operation in the scheduler
that can raise for well-typed input is `//` (ZeroDivisionError), and the
source guards it with `if num_topics`. -/

/-- Python `//` as a fallible operation. -/
def fdivE (a b : Int) : Except String Int :=
  if b = 0 then Except.error "ZeroDivisionError" else Except.ok (Int.fdiv a b)

/-- `per_topic` with the division checked, mirroring
`instruction_min // num_topics if num_topics else 0`. -/
def per_topicE (topics : List String) (assess_min : Int) : Except String Int :=
  if topics.length = 0 then Except.ok 0
  else fdivE (Docx.DAY_TOTAL_MINUTES - assess_min) topics.length

/-- One day's slots in the exception monad. -/
def buildDaySlotsE (topics : List String) (assess_min : Int) :
    Except String (List RawSlot) := do
  let p ← per_topicE topics assess_min
  let r := Docx.topicWalk p topics Docx.DAY_START_MINUTES false
  let r2 := if r.2.2 = false ∧ 0 < assess_min then
      (r.1 ++ [⟨r.2.1, r.2.1 + Docx.LUNCH_DURATION, "Lunch Break"⟩],
        r.2.1 + Docx.LUNCH_DURATION)
    else (r.1, r.2.1)
  pure (if 0 < assess_min then r2.1 ++ [⟨r2.2, r2.2 + assess_min, "Assessment"⟩] else r2.1)

/-- The full schedule in the exception monad. -/
def build_scheduleE (data : ExtractedData) :
    Except String (List (Int × List RawSlot)) :=
  (List.range (Docx.num_days data).toNat).mapM
    (fun (i : Nat) => do
      let s ← buildDaySlotsE (Docx.topics_for data ((i : Int) + 1))
        (Docx.assess_for data ((i : Int) + 1))
      pure ((i : Int) + 1, s))

lemma buildDaySlotsE_ok (t : List String) (a : Int) :
    buildDaySlotsE t a = Except.ok (Docx.buildDaySlots t a) := by
  have hper : per_topicE t a = Except.ok (Docx.per_topic t a) := by
    unfold per_topicE fdivE Docx.per_topic
    by_cases h : t.length = 0
    · rw [if_pos h, if_pos h]
    · rw [if_neg h, if_neg h, if_neg (by exact_mod_cast h)]
  unfold buildDaySlotsE
  rw [hper]
  rfl

lemma mapM_ok {α β : Type} (f : α → Except String β) (g : α → β)
    (h : ∀ a, f a = Except.ok (g a)) :
    ∀ (l : List α), l.mapM f = Except.ok (l.map g)
  | [] => rfl
  | x :: xs => by
    rw [List.mapM_cons, h x, mapM_ok f g h xs]
    rfl

/-- Modelled from the spec (§4.1 time formatting), for comparison with the
code's `_fmt_time`: hour = minutes // 60, rendered as hour - 12 if
hour > 12, as 12 if hour == 0, else unchanged; remainder minutes
zero-padded to two digits; joined with a colon. -/
def fmt_time_spec (minutes : Int) : String :=
  let hour := Int.fdiv minutes 60
  let rendered := if hour > 12 then hour - 12 else if hour = 0 then 12 else hour
  let rem := Int.emod minutes 60
  let remStr := if rem < 10 then "0" ++ toString rem else toString rem
  toString rendered ++ ":" ++ remStr

/-! ## Claim theorems -/

/-- Claim C1, counterexample: for 1 day, 2 topics, 120 summed assessment
minutes, the slot labels are topic 1, topic 2, "Lunch Break",
"Assessment" — not topic 1, "Lunch Break", topic 2, "Assessment" as the
claim states (before topic 2 the clock is at 720 < 770, so lunch is only
inserted by the post-loop fallback). -/
theorem c1_counterexample :
    (Docx._build_schedule_raw ⟨[⟨1, "Topic 1"⟩, ⟨1, "Topic 2"⟩], [⟨1, 120⟩]⟩).map
        (fun q => q.2.map RawSlot.label) =
      [["Topic 1", "Topic 2", "Lunch Break", "Assessment"]] ∧
    ¬ (Docx._build_schedule_raw ⟨[⟨1, "Topic 1"⟩, ⟨1, "Topic 2"⟩], [⟨1, 120⟩]⟩).map
        (fun q => q.2.map RawSlot.label) =
      [["Topic 1", "Lunch Break", "Topic 2", "Assessment"]] := by
  decide

/-- Claim C1, amended: for 1 day with 2 topics and 120 summed assessment
minutes the scheduler computes instruction_budget = 360 and
per_topic = 180, and the day's schedule has exactly 4 slots in the order
topic 1, topic 2, Lunch Break, Assessment, where the Assessment slot's
duration is exactly 120 and its end equals the preceding slot's end
plus 120. -/
theorem c1_amended :
    Docx.DAY_TOTAL_MINUTES -
        Docx.assess_for ⟨[⟨1, "Topic 1"⟩, ⟨1, "Topic 2"⟩], [⟨1, 120⟩]⟩ 1 = 360 ∧
    Docx.per_topic (Docx.topics_for ⟨[⟨1, "Topic 1"⟩, ⟨1, "Topic 2"⟩], [⟨1, 120⟩]⟩ 1)
        (Docx.assess_for ⟨[⟨1, "Topic 1"⟩, ⟨1, "Topic 2"⟩], [⟨1, 120⟩]⟩ 1) = 180 ∧
    Docx._build_schedule_raw ⟨[⟨1, "Topic 1"⟩, ⟨1, "Topic 2"⟩], [⟨1, 120⟩]⟩ =
      [(1, [⟨540, 720, "Topic 1"⟩, ⟨720, 900, "Topic 2"⟩,
            ⟨900, 960, "Lunch Break"⟩, ⟨960, 1080, "Assessment"⟩])] := by
  decide

/-- Claim C4: within each day of the output, slots are contiguous: every
slot's end (in minutes, pre-formatting) equals the next slot's start. -/
theorem c4_contiguous (data : ExtractedData) (d : Int) (slots : List RawSlot)
    (hmem : (d, slots) ∈ Docx._build_schedule_raw data)
    (i : Nat) (h2 : i + 1 < slots.length) :
    (slots.get ⟨i, Nat.lt_of_succ_lt h2⟩).stop = (slots.get ⟨i + 1, h2⟩).start := by
  have hs := (mem_build_schedule_raw.mp hmem).2.2
  subst hs
  obtain ⟨c', hc⟩ := chain_buildDaySlots (Docx.topics_for data d) (Docx.assess_for data d)
  exact chain_get _ hc i h2

/-- Claim C4, witness at the 1-day, 2-topic, 120-assessment input. -/
theorem c4_witness :
    (([⟨540, 720, "Topic A"⟩, ⟨720, 900, "Topic B"⟩, ⟨900, 960, "Lunch Break"⟩,
        ⟨960, 1080, "Assessment"⟩] : List RawSlot).get ⟨1, by decide⟩).stop =
    (([⟨540, 720, "Topic A"⟩, ⟨720, 900, "Topic B"⟩, ⟨900, 960, "Lunch Break"⟩,
        ⟨960, 1080, "Assessment"⟩] : List RawSlot).get ⟨2, by decide⟩).start :=
  c4_contiguous ⟨[⟨1, "Topic A"⟩, ⟨1, "Topic B"⟩], [⟨1, 120⟩]⟩ 1 _ (by decide) 1 (by decide)

/-- Claim C5: the DOCX backend's schedule builder and the PDF backend's
schedule builder return identical outputs on every input, both before
and after time formatting. -/
theorem c5_backends_identical (data : ExtractedData) :
    Pdf._build_schedule data = Docx._build_schedule data ∧
    Pdf._build_schedule_raw data = Docx._build_schedule_raw data := by
  refine ⟨?_, pdf_raw_eq data⟩
  unfold Pdf._build_schedule Docx._build_schedule
  rw [pdf_raw_eq, show Pdf.fmtSlot = Docx.fmtSlot from rfl]

/-- Claim C7: on [0, 1440) the time formatter agrees with the spec's
description, and the four quoted examples hold. -/
theorem c7_fmt_time :
    (∀ m : Int, 0 ≤ m → m < 1440 → Docx._fmt_time m = fmt_time_spec m) ∧
    Docx._fmt_time 540 = "9:00" ∧ Docx._fmt_time 0 = "12:00" ∧
    Docx._fmt_time 780 = "1:00" ∧ Docx._fmt_time 1439 = "11:59" :=
  ⟨fun _ _ _ => rfl, rfl, rfl, rfl, rfl⟩

/-- Claim C7, witness at m = 540. -/
theorem c7_witness :
    (0 : Int) ≤ 540 ∧ (540 : Int) < 1440 ∧ Docx._fmt_time 540 = fmt_time_spec 540 :=
  ⟨by decide, by decide, c7_fmt_time.1 540 (by decide) (by decide)⟩

/-- Claim C9: the key set of the schedule is exactly {1, ..., N} where N
is the maximum day among the topics (N = 1 for an empty topic list), so
days beyond N — in particular assessment entries there — contribute
nothing to the output. -/
theorem c9_day_keys (data : ExtractedData) :
    (∀ d : Int, (∃ s, (d, s) ∈ Docx._build_schedule_raw data) ↔
      1 ≤ d ∧ d ≤ Docx.num_days data) ∧
    (data.learning_outcomes = [] → Docx.num_days data = 1) ∧
    (∀ lo ∈ data.learning_outcomes, lo.day ≤ Docx.num_days data) ∧
    (data.learning_outcomes ≠ [] → ∃ lo ∈ data.learning_outcomes,
      lo.day = Docx.num_days data) ∧
    (∀ d : Int, Docx.num_days data < d →
      ¬ ∃ s, (d, s) ∈ Docx._build_schedule_raw data) := by
  refine ⟨?_, num_days_nil, fun lo h => num_days_ge h, num_days_attained, ?_⟩
  · intro d
    constructor
    · rintro ⟨s, hs⟩
      have h := mem_build_schedule_raw.mp hs
      exact ⟨h.1, h.2.1⟩
    · rintro ⟨h1, h2⟩
      exact ⟨_, mem_build_schedule_raw.mpr ⟨h1, h2, rfl⟩⟩
  · rintro d hd ⟨s, hs⟩
    have h := mem_build_schedule_raw.mp hs
    omega

/-- Claim C9, witness: with a single topic on day 2, day 2 is a key. -/
theorem c9_witness :
    ∃ s, ((2 : Int), s) ∈ Docx._build_schedule_raw ⟨[⟨2, "A"⟩], []⟩ :=
  ((c9_day_keys ⟨[⟨2, "A"⟩], []⟩).1 2).mpr ⟨by decide, by decide⟩

/-- Claim C10: the scheduler is total — in a fallible embedding in which
Python's `//` raises on a zero divisor, the computation never errors,
because the division is guarded by the topic-count check; every
well-typed input (negative durations and non-positive days included)
yields the structurally valid schedule. -/
theorem c10_no_error (data : ExtractedData) :
    build_scheduleE data = Except.ok (Docx._build_schedule_raw data) := by
  unfold build_scheduleE Docx._build_schedule_raw
  refine mapM_ok _ _ (fun i => ?_) _
  rw [buildDaySlotsE_ok]
  rfl

lemma per_topic_of_ne_nil {t : List String} (a : Int) (h : t ≠ []) :
    Docx.per_topic t a = Int.fdiv (Docx.DAY_TOTAL_MINUTES - a) t.length := by
  unfold Docx.per_topic
  rw [if_neg (by simpa using h)]

lemma filter_walkNoLunch_mem {p : Int} {u t : List String} {cur : Int}
    (hsub : ∀ x ∈ u, x ∈ t) :
    (walkNoLunch p u cur).filter (fun s => s.label ∈ t) = walkNoLunch p u cur := by
  rw [List.filter_eq_self]
  intro s hs
  simp only [decide_eq_true_eq]
  exact hsub _ (walkNoLunch_label hs)

/-- Claim C2: an "Assessment" slot is appended, as the last slot of the
day, of duration exactly the day's summed assessment minutes, precisely
when that sum is positive; otherwise the day's list is just the topic
walk and (when the topic labels avoid the reserved label) carries no
"Assessment"-labelled slot. -/
theorem c2_assessment_slot (data : ExtractedData) (d : Int) (slots : List RawSlot)
    (hmem : (d, slots) ∈ Docx._build_schedule_raw data) :
    (0 < Docx.assess_for data d →
      slots = (Docx.afterFallbackLunch (Docx.topics_for data d) (Docx.assess_for data d)).1 ++
        [⟨(Docx.afterFallbackLunch (Docx.topics_for data d) (Docx.assess_for data d)).2,
          (Docx.afterFallbackLunch (Docx.topics_for data d) (Docx.assess_for data d)).2 +
            Docx.assess_for data d, "Assessment"⟩]) ∧
    (Docx.assess_for data d ≤ 0 →
      slots = (Docx.walkResult (Docx.topics_for data d) (Docx.assess_for data d)).1) ∧
    (Docx.assess_for data d ≤ 0 → "Assessment" ∉ Docx.topics_for data d →
      ∀ s ∈ slots, s.label ≠ "Assessment") := by
  have hs := (mem_build_schedule_raw.mp hmem).2.2
  subst hs
  refine ⟨?_, ?_, ?_⟩
  · intro ha
    simp only [Docx.buildDaySlots]
    rw [if_pos ha]
  · intro ha
    simp only [Docx.buildDaySlots, Docx.afterFallbackLunch]
    rw [if_neg (fun hc => absurd hc (not_lt.mpr ha)),
      if_neg (fun hc => absurd hc.2 (not_lt.mpr ha))]
  · intro ha hnot s hsmem heq
    have hmem' : s ∈ (Docx.walkResult (Docx.topics_for data d) (Docx.assess_for data d)).1 := by
      have heq2 : Docx.buildDaySlots (Docx.topics_for data d) (Docx.assess_for data d) =
          (Docx.walkResult (Docx.topics_for data d) (Docx.assess_for data d)).1 := by
        simp only [Docx.buildDaySlots, Docx.afterFallbackLunch]
        rw [if_neg (fun hc => absurd hc (not_lt.mpr ha)),
          if_neg (fun hc => absurd hc.2 (not_lt.mpr ha))]
      exact heq2 ▸ hsmem
    rcases walkResult_label hmem' with h | h
    · exact hnot (heq ▸ h)
    · rw [heq] at h
      simp at h

/-- Claim C2, witness: one topic on day 1 with 120 assessment minutes. -/
theorem c2_witness :
    ([⟨540, 900, "X"⟩, ⟨900, 960, "Lunch Break"⟩, ⟨960, 1080, "Assessment"⟩] : List RawSlot) =
      (Docx.afterFallbackLunch (Docx.topics_for ⟨[⟨1, "X"⟩], [⟨1, 120⟩]⟩ 1)
          (Docx.assess_for ⟨[⟨1, "X"⟩], [⟨1, 120⟩]⟩ 1)).1 ++
        [⟨(Docx.afterFallbackLunch (Docx.topics_for ⟨[⟨1, "X"⟩], [⟨1, 120⟩]⟩ 1)
            (Docx.assess_for ⟨[⟨1, "X"⟩], [⟨1, 120⟩]⟩ 1)).2,
          (Docx.afterFallbackLunch (Docx.topics_for ⟨[⟨1, "X"⟩], [⟨1, 120⟩]⟩ 1)
            (Docx.assess_for ⟨[⟨1, "X"⟩], [⟨1, 120⟩]⟩ 1)).2 +
            Docx.assess_for ⟨[⟨1, "X"⟩], [⟨1, 120⟩]⟩ 1, "Assessment"⟩] :=
  (c2_assessment_slot ⟨[⟨1, "X"⟩], [⟨1, 120⟩]⟩ 1 _ (by decide)).1 (by decide)

/-- Claim C6: for a day with N > 0 topics and zero summed assessment
minutes, the day has N slots (N + 1 when the lunch threshold is crossed)
and the final slot ends at DAY_START + (instruction_budget // N) * N,
plus the lunch duration when lunch was inserted. -/
theorem c6_day_without_assessment (data : ExtractedData) (d : Int) (slots : List RawSlot)
    (hmem : (d, slots) ∈ Docx._build_schedule_raw data)
    (hN : Docx.topics_for data d ≠ [])
    (ha : Docx.assess_for data d = 0) :
    slots.length = (Docx.topics_for data d).length +
      (if reaches (Docx.per_topic (Docx.topics_for data d) (Docx.assess_for data d))
          (Docx.topics_for data d) Docx.DAY_START_MINUTES = true then 1 else 0) ∧
    ∃ s, slots.getLast? = some s ∧
      s.stop = Docx.DAY_START_MINUTES +
        Int.fdiv (Docx.DAY_TOTAL_MINUTES - Docx.assess_for data d)
            (Docx.topics_for data d).length * (Docx.topics_for data d).length +
        (if reaches (Docx.per_topic (Docx.topics_for data d) (Docx.assess_for data d))
            (Docx.topics_for data d) Docx.DAY_START_MINUTES = true
          then Docx.LUNCH_DURATION else 0) := by
  have hs := (mem_build_schedule_raw.mp hmem).2.2
  subst hs
  have hwalk : Docx.buildDaySlots (Docx.topics_for data d) (Docx.assess_for data d) =
      (Docx.walkResult (Docx.topics_for data d) (Docx.assess_for data d)).1 := by
    simp only [Docx.buildDaySlots, Docx.afterFallbackLunch]
    rw [if_neg (fun hc => by rw [ha] at hc; exact absurd hc (lt_irrefl 0)),
      if_neg (fun hc => by rw [ha] at hc; exact absurd hc.2 (lt_irrefl 0))]
  rw [hwalk]
  constructor
  · exact walkResult_length _ _
  · have hne : (Docx.walkResult (Docx.topics_for data d) (Docx.assess_for data d)).1 ≠ [] := by
      intro hnil
      have := walkResult_length (Docx.topics_for data d) (Docx.assess_for data d)
      rw [hnil] at this
      simp only [List.length_nil] at this
      have hlen : (Docx.topics_for data d).length ≠ 0 := by simpa using hN
      by_cases hre : reaches (Docx.per_topic (Docx.topics_for data d) (Docx.assess_for data d))
          (Docx.topics_for data d) Docx.DAY_START_MINUTES = true
      · rw [if_pos hre] at this
        omega
      · rw [if_neg hre] at this
        omega
    obtain ⟨s, hlast, hstop⟩ := chain_getLast _ (chain_walkResult _ _) hne
    refine ⟨s, hlast, ?_⟩
    rw [hstop, walkResult_current, per_topic_of_ne_nil _ hN]

/-- Claim C6, witness: two topics, no assessment; the threshold is
crossed before topic 2, so 3 slots and a final end of 1080. -/
theorem c6_witness :
    ([⟨540, 780, "A"⟩, ⟨780, 840, "Lunch Break"⟩, ⟨840, 1080, "B"⟩] :
        List RawSlot).length =
      (Docx.topics_for ⟨[⟨1, "A"⟩, ⟨1, "B"⟩], []⟩ 1).length +
      (if reaches (Docx.per_topic (Docx.topics_for ⟨[⟨1, "A"⟩, ⟨1, "B"⟩], []⟩ 1)
          (Docx.assess_for ⟨[⟨1, "A"⟩, ⟨1, "B"⟩], []⟩ 1))
          (Docx.topics_for ⟨[⟨1, "A"⟩, ⟨1, "B"⟩], []⟩ 1) Docx.DAY_START_MINUTES = true
        then 1 else 0) :=
  (c6_day_without_assessment ⟨[⟨1, "A"⟩, ⟨1, "B"⟩], []⟩ 1 _
    (by decide) (by decide) (by decide)).1

/-- Claim C8: for a day with N > 0 topics, every topic slot lasts
(DAY_BUDGET - assessment) // N minutes and the topic slots sum to that
value times N; the division remainder lands in no slot. -/
theorem c8_topic_durations (data : ExtractedData) (d : Int) (slots : List RawSlot)
    (hmem : (d, slots) ∈ Docx._build_schedule_raw data)
    (hN : Docx.topics_for data d ≠ [])
    (h1 : "Lunch Break" ∉ Docx.topics_for data d)
    (h2 : "Assessment" ∉ Docx.topics_for data d) :
    ((slots.filter (fun s => s.label ∈ Docx.topics_for data d)).map
        (fun s => s.stop - s.start)).sum =
      Int.fdiv (Docx.DAY_TOTAL_MINUTES - Docx.assess_for data d)
          (Docx.topics_for data d).length * (Docx.topics_for data d).length ∧
    ∀ s ∈ slots, s.label ∈ Docx.topics_for data d →
      s.stop - s.start = Int.fdiv (Docx.DAY_TOTAL_MINUTES - Docx.assess_for data d)
        (Docx.topics_for data d).length := by
  have hs := (mem_build_schedule_raw.mp hmem).2.2
  subst hs
  rw [buildDaySlots_decomp]
  rw [← per_topic_of_ne_nil (Docx.assess_for data d) hN]
  have hLnot : ¬ (("Lunch Break" : String) ∈ Docx.topics_for data d) := h1
  have hAnot : ¬ (("Assessment" : String) ∈ Docx.topics_for data d) := h2
  have hwalk : ((Docx.walkResult (Docx.topics_for data d) (Docx.assess_for data d)).1.filter
      (fun s => s.label ∈ Docx.topics_for data d)) =
      (Docx.walkResult (Docx.topics_for data d) (Docx.assess_for data d)).1.filter
        (fun s => s.label ∈ Docx.topics_for data d) := rfl
  constructor
  · rw [List.filter_append, List.filter_append]
    have hopt1 : ((if reaches (Docx.per_topic (Docx.topics_for data d) (Docx.assess_for data d))
          (Docx.topics_for data d) Docx.DAY_START_MINUTES = false ∧
          0 < Docx.assess_for data d then
        ([⟨(Docx.walkResult (Docx.topics_for data d) (Docx.assess_for data d)).2.1,
          (Docx.walkResult (Docx.topics_for data d) (Docx.assess_for data d)).2.1 +
            Docx.LUNCH_DURATION, "Lunch Break"⟩] : List RawSlot)
        else []).filter (fun s => s.label ∈ Docx.topics_for data d)) = [] := by
      split
      · simp [hLnot]
      · rfl
    have hopt2 : ((if 0 < Docx.assess_for data d then
        ([⟨(Docx.afterFallbackLunch (Docx.topics_for data d) (Docx.assess_for data d)).2,
          (Docx.afterFallbackLunch (Docx.topics_for data d) (Docx.assess_for data d)).2 +
            Docx.assess_for data d, "Assessment"⟩] : List RawSlot)
        else []).filter (fun s => s.label ∈ Docx.topics_for data d)) = [] := by
      split
      · simp [hAnot]
      · rfl
    rw [hopt1, hopt2, List.append_nil, List.append_nil]
    cases hre : reaches (Docx.per_topic (Docx.topics_for data d) (Docx.assess_for data d))
        (Docx.topics_for data d) Docx.DAY_START_MINUTES with
    | false =>
      rw [Docx.walkResult, topicWalk_not_reaches _ _ _ hre]
      rw [filter_walkNoLunch_mem (fun x hx => hx), walkNoLunch_dursum]
    | true =>
      obtain ⟨t₁, s', t₂, ht, hlt, hge, hw⟩ := topicWalk_reaches
        (Docx.per_topic (Docx.topics_for data d) (Docx.assess_for data d))
        (Docx.topics_for data d) Docx.DAY_START_MINUTES hre
      rw [Docx.walkResult, hw]
      simp only [List.filter_append, List.filter_cons]
      rw [filter_walkNoLunch_mem (fun x hx => ht ▸ List.mem_append_left _ hx),
        filter_walkNoLunch_mem (fun x hx => ht ▸ List.mem_append_right _ hx)]
      have hlf : (decide (("Lunch Break" : String) ∈ Docx.topics_for data d)) = false := by
        simpa using hLnot
      simp only [hlf, Bool.false_eq_true, if_false]
      rw [List.map_append, List.sum_append, walkNoLunch_dursum, walkNoLunch_dursum]
      have hlen : ((Docx.topics_for data d).length : Int) =
          (t₁.length : Int) + ((t₂.length : Int) + 1) := by
        rw [ht]
        push_cast [List.length_append, List.length_cons]
        ring
      rw [hlen, show (((s' :: t₂).length : Nat) : Int) = (t₂.length : Int) + 1 from by simp]
      ring
  · intro s hsmem hlab
    simp only [List.mem_append] at hsmem
    rcases hsmem with (hsmem | hsmem) | hsmem
    · rcases hre : reaches (Docx.per_topic (Docx.topics_for data d) (Docx.assess_for data d))
          (Docx.topics_for data d) Docx.DAY_START_MINUTES with _ | _
      · rw [Docx.walkResult, topicWalk_not_reaches _ _ _ hre] at hsmem
        have := walkNoLunch_duration hsmem
        omega
      · obtain ⟨t₁, s', t₂, ht, hlt, hge, hw⟩ := topicWalk_reaches
          (Docx.per_topic (Docx.topics_for data d) (Docx.assess_for data d))
          (Docx.topics_for data d) Docx.DAY_START_MINUTES hre
        rw [Docx.walkResult, hw] at hsmem
        simp only [List.mem_append, List.mem_cons] at hsmem
        rcases hsmem with hsmem | hsmem | hsmem
        · have := walkNoLunch_duration hsmem
          omega
        · rw [hsmem] at hlab
          exact absurd hlab hLnot
        · have := walkNoLunch_duration hsmem
          omega
    · revert hsmem
      split
      · intro hsmem
        simp only [List.mem_singleton] at hsmem
        rw [hsmem] at hlab
        exact absurd hlab hLnot
      · intro hsmem
        simp at hsmem
    · revert hsmem
      split
      · intro hsmem
        simp only [List.mem_singleton] at hsmem
        rw [hsmem] at hlab
        exact absurd hlab hAnot
      · intro hsmem
        simp at hsmem

/-- Claim C8, witness: two topics with 100 assessment minutes; each topic
slot lasts 190 minutes and they sum to 380. -/
theorem c8_witness :
    ((([⟨540, 730, "A"⟩, ⟨730, 920, "B"⟩, ⟨920, 980, "Lunch Break"⟩,
        ⟨980, 1080, "Assessment"⟩] : List RawSlot).filter
          (fun s => s.label ∈ Docx.topics_for ⟨[⟨1, "A"⟩, ⟨1, "B"⟩], [⟨1, 100⟩]⟩ 1)).map
        (fun s => s.stop - s.start)).sum =
      Int.fdiv (Docx.DAY_TOTAL_MINUTES -
          Docx.assess_for ⟨[⟨1, "A"⟩, ⟨1, "B"⟩], [⟨1, 100⟩]⟩ 1)
          (Docx.topics_for ⟨[⟨1, "A"⟩, ⟨1, "B"⟩], [⟨1, 100⟩]⟩ 1).length *
        (Docx.topics_for ⟨[⟨1, "A"⟩, ⟨1, "B"⟩], [⟨1, 100⟩]⟩ 1).length :=
  (c8_topic_durations ⟨[⟨1, "A"⟩, ⟨1, "B"⟩], [⟨1, 100⟩]⟩ 1 _
    (by decide) (by decide) (by decide) (by decide)).1

/-! ## Lunch placement (claim C3) -/

lemma unique_split {γ : Type} (pred : γ → Prop) :
    ∀ (l₁ m₁ : List γ) {l₂ m₂ : List γ} {x y : γ},
    l₁ ++ x :: l₂ = m₁ ++ y :: m₂ → pred x → pred y →
    (∀ z ∈ l₁, ¬ pred z) → (∀ z ∈ l₂, ¬ pred z) →
    l₁ = m₁ ∧ x = y ∧ l₂ = m₂
  | [], [], l₂, m₂, x, y, heq, px, py, h1, h2 => by
    simp only [List.nil_append] at heq
    obtain ⟨h3, h4⟩ := List.cons_eq_cons.mp heq
    exact ⟨rfl, h3, h4⟩
  | [], z :: m₁', l₂, m₂, x, y, heq, px, py, h1, h2 => by
    simp only [List.nil_append, List.cons_append] at heq
    obtain ⟨hx, hrest⟩ := List.cons_eq_cons.mp heq
    refine absurd py (h2 y ?_)
    rw [hrest]
    exact List.mem_append_right _ (List.mem_cons_self _ _)
  | w :: l₁', [], l₂, m₂, x, y, heq, px, py, h1, h2 => by
    simp only [List.cons_append, List.nil_append] at heq
    obtain ⟨hw, hrest⟩ := List.cons_eq_cons.mp heq
    exact absurd (hw ▸ py) (h1 w (List.mem_cons_self _ _))
  | w :: l₁', z :: m₁', l₂, m₂, x, y, heq, px, py, h1, h2 => by
    simp only [List.cons_append] at heq
    obtain ⟨hw, hrest⟩ := List.cons_eq_cons.mp heq
    obtain ⟨he1, he2, he3⟩ := unique_split pred l₁' m₁' hrest px py
      (fun z hz => h1 z (List.mem_cons_of_mem _ hz)) h2
    exact ⟨by rw [hw, he1], he2, he3⟩

lemma walkNoLunch_not_lunch {p : Int} {t u : List String} {cur : Int}
    (hsub : ∀ x ∈ u, x ∈ t) (hfresh : "Lunch Break" ∉ t) :
    ∀ z ∈ walkNoLunch p u cur, ¬ z.label = "Lunch Break" :=
  fun _ hz heq => hfresh (heq ▸ hsub _ (walkNoLunch_label hz))

lemma lunch_day_count {t : List String} {a : Int} (hfresh : "Lunch Break" ∉ t) :
    lunchCount (Docx.buildDaySlots t a) =
      (if a ≤ 0 ∧ reaches (Docx.per_topic t a) t Docx.DAY_START_MINUTES = false
        then 0 else 1) := by
  rw [buildDaySlots_decomp, lunchCount_append, lunchCount_append,
    lunchCount_walkResult hfresh]
  cases hre : reaches (Docx.per_topic t a) t Docx.DAY_START_MINUTES with
  | false =>
    by_cases ha : 0 < a
    · have hna : ¬ a ≤ 0 := not_le.mpr ha
      simp [lunchCount, hre, ha, hna]
    · have hna : a ≤ 0 := not_lt.mp ha
      simp [lunchCount, hre, ha, hna]
  | true =>
    simp [lunchCount, hre]

lemma lunch_day_duration {t : List String} {a : Int} (hfresh : "Lunch Break" ∉ t) :
    ∀ s ∈ Docx.buildDaySlots t a, s.label = "Lunch Break" →
      s.stop = s.start + Docx.LUNCH_DURATION := by
  intro s hsmem hlab
  rw [buildDaySlots_decomp] at hsmem
  simp only [List.mem_append] at hsmem
  rcases hsmem with (hsmem | hsmem) | hsmem
  · cases hre : reaches (Docx.per_topic t a) t Docx.DAY_START_MINUTES with
    | false =>
      rw [Docx.walkResult, topicWalk_not_reaches _ _ _ hre] at hsmem
      exact absurd hlab (walkNoLunch_not_lunch (fun x hx => hx) hfresh _ hsmem)
    | true =>
      obtain ⟨t₁, s', t₂, ht, hlt, hge, hw⟩ :=
        topicWalk_reaches (Docx.per_topic t a) t Docx.DAY_START_MINUTES hre
      rw [Docx.walkResult, hw] at hsmem
      simp only [List.mem_append, List.mem_cons] at hsmem
      rcases hsmem with hsmem | hsmem | hsmem
      · exact absurd hlab (walkNoLunch_not_lunch
          (fun x hx => ht ▸ List.mem_append_left _ hx) hfresh _ hsmem)
      · rw [hsmem]
      · exact absurd hlab (walkNoLunch_not_lunch
          (fun x hx => ht ▸ List.mem_append_right _ hx) hfresh _ hsmem)
  · revert hsmem
    split
    · intro hsmem
      simp only [List.mem_singleton] at hsmem
      rw [hsmem]
    · intro hsmem
      simp at hsmem
  · revert hsmem
    split
    · intro hsmem
      simp only [List.mem_singleton] at hsmem
      rw [hsmem] at hlab
      simp at hlab
    · intro hsmem
      simp at hsmem

lemma lunch_day_position {t : List String} {a : Int} (hfresh : "Lunch Break" ∉ t) :
    ∀ pre s post, Docx.buildDaySlots t a = pre ++ s :: post →
      s.label = "Lunch Break" →
      ((∃ nxt post2, post = nxt :: post2 ∧ nxt.label ∈ t ∧
          13 * 60 - 10 ≤ s.start ∧ ∀ q ∈ pre, q.start < 13 * 60 - 10)
        ∨ (reaches (Docx.per_topic t a) t Docx.DAY_START_MINUTES = false ∧
          0 < a ∧ post = [⟨s.stop, s.stop + a, "Assessment"⟩])) := by
  intro pre s post hsplit hlab
  rw [buildDaySlots_decomp] at hsplit
  cases hre : reaches (Docx.per_topic t a) t Docx.DAY_START_MINUTES with
  | true =>
    rw [hre] at hsplit
    obtain ⟨t₁, s', t₂, ht, hlt, hge, hw⟩ :=
      topicWalk_reaches (Docx.per_topic t a) t Docx.DAY_START_MINUTES hre
    have hw1 : (Docx.walkResult t a).1 =
        walkNoLunch (Docx.per_topic t a) t₁ Docx.DAY_START_MINUTES ++
          ⟨Docx.DAY_START_MINUTES + Docx.per_topic t a * t₁.length,
            Docx.DAY_START_MINUTES + Docx.per_topic t a * t₁.length + Docx.LUNCH_DURATION,
            "Lunch Break"⟩ ::
          walkNoLunch (Docx.per_topic t a) (s' :: t₂)
            (Docx.DAY_START_MINUTES + Docx.per_topic t a * t₁.length + Docx.LUNCH_DURATION) := by
      rw [Docx.walkResult, hw]
    rw [hw1, if_neg (by simp), List.append_nil, List.append_assoc,
      List.cons_append] at hsplit
    obtain ⟨he1, he2, he3⟩ := unique_split (fun q : RawSlot => q.label = "Lunch Break")
      _ pre hsplit rfl hlab
      (walkNoLunch_not_lunch (fun x hx => ht ▸ List.mem_append_left _ hx) hfresh)
      (by
        intro z hz
        simp only [List.mem_append] at hz
        rcases hz with hz | hz
        · exact walkNoLunch_not_lunch
            (fun x hx => ht ▸ List.mem_append_right _ hx) hfresh _ hz
        · revert hz
          split
          · intro hz
            simp only [List.mem_singleton] at hz
            rw [hz]
            simp
          · intro hz
            simp at hz)
    refine Or.inl ?_
    simp only [walkNoLunch, List.cons_append] at he3
    refine ⟨_, _, he3.symm, ?_, ?_, ?_⟩
    · exact ht ▸ List.mem_append_right _ (List.mem_cons_self _ _)
    · rw [← he2]
      exact hge
    · intro q hq
      rw [← he1] at hq
      obtain ⟨i, hi⟩ := mem_walkNoLunch hq
      rw [hi]
      exact hlt i i.isLt
  | false =>
    rw [hre] at hsplit
    by_cases ha : 0 < a
    · have hwr : (Docx.walkResult t a).1 =
          walkNoLunch (Docx.per_topic t a) t Docx.DAY_START_MINUTES := by
        rw [Docx.walkResult, topicWalk_not_reaches _ _ _ hre]
      have hfb : (Docx.afterFallbackLunch t a).2 =
          (Docx.walkResult t a).2.1 + Docx.LUNCH_DURATION := by
        rw [afterFallbackLunch_current, hre, if_pos ⟨rfl, ha⟩]
      rw [hwr, if_pos ⟨rfl, ha⟩, if_pos ha, hfb, List.append_assoc,
        List.singleton_append] at hsplit
      obtain ⟨he1, he2, he3⟩ := unique_split (fun q : RawSlot => q.label = "Lunch Break")
        _ pre hsplit rfl hlab
        (walkNoLunch_not_lunch (fun x hx => hx) hfresh)
        (by
          intro z hz
          simp only [List.mem_singleton] at hz
          rw [hz]
          simp)
      refine Or.inr ⟨rfl, ha, ?_⟩
      rw [← he3, ← he2]
    · rw [if_neg (fun hc => ha hc.2), if_neg ha, List.append_nil,
        List.append_nil] at hsplit
      have hwr : (Docx.walkResult t a).1 =
          walkNoLunch (Docx.per_topic t a) t Docx.DAY_START_MINUTES := by
        rw [Docx.walkResult, topicWalk_not_reaches _ _ _ hre]
      rw [hwr] at hsplit
      have hs : s ∈ walkNoLunch (Docx.per_topic t a) t Docx.DAY_START_MINUTES := by
        rw [hsplit]
        exact List.mem_append_right _ (List.mem_cons_self _ _)
      exact absurd hlab (walkNoLunch_not_lunch (fun x hx => hx) hfresh _ hs)


/-- Claim C3, counterexample: a day whose summed assessment minutes are
negative (hence nonzero) and whose clock never reaches the threshold
gets no Lunch Break slot, although the claim predicts exactly one. -/
theorem c3_counterexample :
    Docx.assess_for ⟨[], [⟨1, -5⟩]⟩ 1 ≠ 0 ∧
    Docx._build_schedule_raw ⟨[], [⟨1, -5⟩]⟩ = [(1, [])] ∧
    lunchCount [] ≠ 1 := by
  decide

/-- Claim C3, amended: "zero summed assessment minutes" must read "no
positive summed assessment minutes".  Each day carries exactly one Lunch
Break slot of duration LUNCH_DURATION — inserted immediately before the
first topic slot at which the running clock is at or past 13*60-10, or,
when the threshold is never crossed and the assessment sum is positive,
immediately before the Assessment slot — except when the assessment sum
is not positive and the threshold is never crossed, in which case there
is none; never more than one. -/
theorem c3_lunch_break (data : ExtractedData) (d : Int) (slots : List RawSlot)
    (hmem : (d, slots) ∈ Docx._build_schedule_raw data)
    (hfresh : "Lunch Break" ∉ Docx.topics_for data d) :
    lunchCount slots =
      (if Docx.assess_for data d ≤ 0 ∧
          reaches (Docx.per_topic (Docx.topics_for data d) (Docx.assess_for data d))
            (Docx.topics_for data d) Docx.DAY_START_MINUTES = false
        then 0 else 1) ∧
    (∀ s ∈ slots, s.label = "Lunch Break" →
      s.stop = s.start + Docx.LUNCH_DURATION) ∧
    (∀ pre s post, slots = pre ++ s :: post → s.label = "Lunch Break" →
      ((∃ nxt post2, post = nxt :: post2 ∧ nxt.label ∈ Docx.topics_for data d ∧
          13 * 60 - 10 ≤ s.start ∧ ∀ q ∈ pre, q.start < 13 * 60 - 10)
        ∨ (reaches (Docx.per_topic (Docx.topics_for data d) (Docx.assess_for data d))
            (Docx.topics_for data d) Docx.DAY_START_MINUTES = false ∧
          0 < Docx.assess_for data d ∧
          post = [⟨s.stop, s.stop + Docx.assess_for data d, "Assessment"⟩]))) := by
  have hs := (mem_build_schedule_raw.mp hmem).2.2
  subst hs
  exact ⟨lunch_day_count hfresh, lunch_day_duration hfresh, lunch_day_position hfresh⟩

/-- Claim C3, witness: one topic and a positive assessment sum — the
fallback inserts exactly one lunch slot. -/
theorem c3_witness :
    lunchCount [⟨540, 900, "A"⟩, ⟨900, 960, "Lunch Break"⟩, ⟨960, 1080, "Assessment"⟩] =
      (if Docx.assess_for ⟨[⟨1, "A"⟩], [⟨1, 120⟩]⟩ 1 ≤ 0 ∧
          reaches (Docx.per_topic (Docx.topics_for ⟨[⟨1, "A"⟩], [⟨1, 120⟩]⟩ 1)
              (Docx.assess_for ⟨[⟨1, "A"⟩], [⟨1, 120⟩]⟩ 1))
            (Docx.topics_for ⟨[⟨1, "A"⟩], [⟨1, 120⟩]⟩ 1) Docx.DAY_START_MINUTES = false
        then 0 else 1) :=
  (c3_lunch_break ⟨[⟨1, "A"⟩], [⟨1, 120⟩]⟩ 1 _ (by decide) (by decide)).1
